import Mathlib

set_option maxRecDepth 4000

/-!
Verification of the request-inspection security pipeline of the AI4Devs
kanban backend, embedded shallowly from
`src/backend/src/middleware/security.ts`.

JSON-compatible request bodies are modelled by the inductive type `Json`;
each Express middleware becomes a function `Req → StageResult`, where
`StageResult.next` models calling `next()` (possibly with a mutated
request) and `StageResult.reject` models sending an error response
(status, machine-readable code, optional diagnostic detail).  The
Express middleware chain itself is modelled by `runPipeline`, which runs
the configured stage list in order, short-circuiting on the first
rejection.
-/

/-- A JSON-compatible value: the shape of a parsed request body or of a
query-parameter object.  `null` is kept separate because JavaScript's
`typeof null === 'object'` is always paired with an `!== null` guard in
the source. -/
inductive Json where
  | null
  | bool (b : Bool)
  | num (n : Int)
  | str (s : String)
  | arr (elems : List Json)
  | obj (entries : List (String × Json))

/-- The test `typeof v === 'object' && v !== null` from the source:
true exactly for arrays and (non-null) objects. -/
def Json.isComplex : Json → Bool
  | .arr _ => true
  | .obj _ => true
  | _ => false

mutual
/-- Embedding of `calculateJsonComplexity` (security.ts, lines 82-102):
returns the pair (maxDepth, fieldCount) for a value at a given current
depth, with the depth-50 circuit breaker in front. -/
def calculateJsonComplexity : Json → Nat → Nat × Nat
  | v, depth =>
    if depth > 50 then (50, 0)
    else
      match v with
      | .arr xs =>
          let c := processArrayComplexity xs depth
          (Nat.max depth c.1, xs.length + c.2)
      | .obj es =>
          let c := processObjectComplexity es depth
          (Nat.max depth c.1, es.length + c.2)
      | _ => (depth, 0)

/-- Embedding of `processArrayComplexity` (security.ts, lines 104-117):
folds max-depth and field-count over the array elements, recursing only
into elements that are themselves arrays/objects. -/
def processArrayComplexity : List Json → Nat → Nat × Nat
  | [], depth => (depth, 0)
  | x :: xs, depth =>
      let rest := processArrayComplexity xs depth
      if x.isComplex then
        let sub := calculateJsonComplexity x (depth + 1)
        (Nat.max sub.1 rest.1, sub.2 + rest.2)
      else rest

/-- Embedding of `processObjectComplexity` (security.ts, lines 119-132):
same fold over the values of an object's entries. -/
def processObjectComplexity : List (String × Json) → Nat → Nat × Nat
  | [], depth => (depth, 0)
  | (_, v) :: es, depth =>
      let rest := processObjectComplexity es depth
      if v.isComplex then
        let sub := calculateJsonComplexity v (depth + 1)
        (Nat.max sub.1 rest.1, sub.2 + rest.2)
      else rest
end

mutual
/-- The spec's recursive reference definition of the complexity measure
(spec section 4.1, claim C2), written from the spec's words: a scalar at
depth d scores (d, 0); an array of length N adds N to the field count
and folds max-depth / summed-field-count over its array/object elements
at depth d+1; an object with K keys does the same over its values.
There is no circuit breaker in the reference definition. -/
def measureSpec : Json → Nat → Nat × Nat
  | .arr xs, d =>
      let c := measureSpecList xs d
      (Nat.max d c.1, xs.length + c.2)
  | .obj es, d =>
      let c := measureSpecEntries es d
      (Nat.max d c.1, es.length + c.2)
  | _, d => (d, 0)

/-- Fold of `measureSpec` over array elements (reference definition). -/
def measureSpecList : List Json → Nat → Nat × Nat
  | [], d => (d, 0)
  | x :: xs, d =>
      let rest := measureSpecList xs d
      if x.isComplex then
        let sub := measureSpec x (d + 1)
        (Nat.max sub.1 rest.1, sub.2 + rest.2)
      else rest

/-- Fold of `measureSpec` over object entries (reference definition). -/
def measureSpecEntries : List (String × Json) → Nat → Nat × Nat
  | [], d => (d, 0)
  | (_, v) :: es, d =>
      let rest := measureSpecEntries es d
      if v.isComplex then
        let sub := measureSpec v (d + 1)
        (Nat.max sub.1 rest.1, sub.2 + rest.2)
      else rest
end

mutual
/-- Structural height of a JSON tree: scalars have height 0, an
array/object is one more than the largest height among its elements /
entry values.  Used to bound the recursion depth the scorer reaches. -/
def jsonHeight : Json → Nat
  | .arr xs => 1 + jsonHeightList xs
  | .obj es => 1 + jsonHeightEntries es
  | _ => 0

/-- Largest `jsonHeight` among a list of elements. -/
def jsonHeightList : List Json → Nat
  | [] => 0
  | x :: xs => Nat.max (jsonHeight x) (jsonHeightList xs)

/-- Largest `jsonHeight` among an entry list's values. -/
def jsonHeightEntries : List (String × Json) → Nat
  | [] => 0
  | (_, v) :: es => Nat.max (jsonHeight v) (jsonHeightEntries es)
end

/-- A header value as Express delivers it: a single string or a string
array (e.g. repeated `set-cookie` headers). -/
inductive HeaderVal where
  | str (s : String)
  | list (vs : List String)

/-- The per-request data the middleware stack inspects: declared
content length, the parsed body (`none` models an absent/undefined
body), the query-parameter object, the header map, and the raw cookie
header (`req.headers.cookie`). -/
structure Req where
  contentLength : Nat
  body : Option Json
  query : Json
  headers : List (String × HeaderVal)
  cookieHeader : Option String

/-- Outcome of one middleware stage: `next` models calling `next()`
with the (possibly mutated) request; `reject` models immediately
sending an error response with an HTTP status, a machine-readable code
and an optional diagnostic detail (e.g. the offending header name). -/
inductive StageResult where
  | next (req : Req)
  | reject (status : Nat) (code : String) (detail : Option String)

/-- One pipeline stage. -/
abbrev Stage := Req → StageResult

/-- The Express middleware chain semantics over a configured stage
list: run each stage in order against the possibly-already-mutated
request; the first rejection is the terminal verdict and no later stage
runs; if every stage continues, the final request is handed onward. -/
def runPipeline : List Stage → Req → StageResult
  | [], req => .next req
  | s :: rest, req =>
      match s req with
      | .next req' => runPipeline rest req'
      | .reject status code detail => .reject status code detail

/-- Embedding of `dosProtection` (security.ts, lines 44-79): reject 413
`PAYLOAD_TOO_LARGE` above the 5 MB declared content length; then, only
when the body is a (non-null) object or array, reject 400
`EXCESSIVE_NESTING` when the scored depth exceeds 20, else 400
`EXCESSIVE_FIELDS` when the scored field count exceeds 5000; otherwise
continue. -/
def dosProtection : Stage := fun req =>
  if req.contentLength > 5 * 1024 * 1024 then
    .reject 413 "PAYLOAD_TOO_LARGE" none
  else
    match req.body with
    | some v =>
        if v.isComplex then
          let complexity := calculateJsonComplexity v 0
          if complexity.1 > 20 then .reject 400 "EXCESSIVE_NESTING" none
          else if complexity.2 > 5000 then .reject 400 "EXCESSIVE_FIELDS" none
          else .next req
        else .next req
    | none => .next req

/-- A synthetically nested single-key object with `d` levels of object
nesting around a scalar, as built by the repository's own
`createNestedObject(depth)` test helper. -/
def nestObj : Nat → Json
  | 0 => .str "deep"
  | d + 1 => .obj [("nested", nestObj d)]

example : calculateJsonComplexity (nestObj 3) 0 = (2, 3) := rfl
example : calculateJsonComplexity (nestObj 25) 0 = (24, 25) := rfl
example : measureSpec (.obj [("a", .arr [.num 1, .str "x"])]) 0 = (1, 3) := rfl

/-! ### Facts about the complexity scorer -/

theorem calc_breaker (v : Json) (d : Nat) (h : 50 < d) :
    calculateJsonComplexity v d = (50, 0) := by
  cases v <;> simp [calculateJsonComplexity, h]

mutual
/-- Below the circuit-breaker ceiling, the source scorer agrees with the
spec's reference definition. -/
theorem calcEqSpec : ∀ (v : Json) (d : Nat), d + jsonHeight v ≤ 50 →
    calculateJsonComplexity v d = measureSpec v d
  | .null, d, h => by
      have hd : ¬ d > 50 := by simp [jsonHeight] at h; omega
      simp [calculateJsonComplexity, measureSpec, hd]
  | .bool b, d, h => by
      have hd : ¬ d > 50 := by simp [jsonHeight] at h; omega
      simp [calculateJsonComplexity, measureSpec, hd]
  | .num n, d, h => by
      have hd : ¬ d > 50 := by simp [jsonHeight] at h; omega
      simp [calculateJsonComplexity, measureSpec, hd]
  | .str s, d, h => by
      have hd : ¬ d > 50 := by simp [jsonHeight] at h; omega
      simp [calculateJsonComplexity, measureSpec, hd]
  | .arr xs, d, h => by
      have h' : d + 1 + jsonHeightList xs ≤ 50 := by simp [jsonHeight] at h; omega
      have hd : ¬ d > 50 := by omega
      have hl := calcEqSpecList xs d h'
      simp [calculateJsonComplexity, measureSpec, hd, hl]
  | .obj es, d, h => by
      have h' : d + 1 + jsonHeightEntries es ≤ 50 := by simp [jsonHeight] at h; omega
      have hd : ¬ d > 50 := by omega
      have hl := calcEqSpecEntries es d h'
      simp [calculateJsonComplexity, measureSpec, hd, hl]

theorem calcEqSpecList : ∀ (xs : List Json) (d : Nat),
    d + 1 + jsonHeightList xs ≤ 50 →
    processArrayComplexity xs d = measureSpecList xs d
  | [], _, _ => rfl
  | x :: xs, d, h => by
      have hmax : d + 1 + Nat.max (jsonHeight x) (jsonHeightList xs) ≤ 50 := by
        simpa [jsonHeightList] using h
      have hlx : jsonHeight x ≤ Nat.max (jsonHeight x) (jsonHeightList xs) :=
        le_max_left _ _
      have hlxs : jsonHeightList xs ≤ Nat.max (jsonHeight x) (jsonHeightList xs) :=
        le_max_right _ _
      have h1 := calcEqSpecList xs d (by omega)
      by_cases hc : x.isComplex
      · have h2 := calcEqSpec x (d + 1) (by omega)
        simp [processArrayComplexity, measureSpecList, hc, h1, h2]
      · simp [processArrayComplexity, measureSpecList, hc, h1]

theorem calcEqSpecEntries : ∀ (es : List (String × Json)) (d : Nat),
    d + 1 + jsonHeightEntries es ≤ 50 →
    processObjectComplexity es d = measureSpecEntries es d
  | [], _, _ => rfl
  | (k, v) :: es, d, h => by
      have hmax : d + 1 + Nat.max (jsonHeight v) (jsonHeightEntries es) ≤ 50 := by
        simpa [jsonHeightEntries] using h
      have hlx : jsonHeight v ≤ Nat.max (jsonHeight v) (jsonHeightEntries es) :=
        le_max_left _ _
      have hlxs : jsonHeightEntries es ≤ Nat.max (jsonHeight v) (jsonHeightEntries es) :=
        le_max_right _ _
      have h1 := calcEqSpecEntries es d (by omega)
      by_cases hc : v.isComplex
      · have h2 := calcEqSpec v (d + 1) (by omega)
        simp [processObjectComplexity, measureSpecEntries, hc, h1, h2]
      · simp [processObjectComplexity, measureSpecEntries, hc, h1]
end

/-- One-step evaluation of the scorer on a single-key object whose value
is itself an array/object. -/
theorem calc_nest_complex (w : Json) (c : Nat) (hc : c ≤ 50) (hw : w.isComplex = true) :
    calculateJsonComplexity (Json.obj [("nested", w)]) c =
      (Nat.max (calculateJsonComplexity w (c + 1)).1 c,
        1 + (calculateJsonComplexity w (c + 1)).2) := by
  have hc' : ¬ c > 50 := by omega
  rw [calculateJsonComplexity]
  simp [hc', processObjectComplexity, hw]

/-- One-step evaluation of the scorer on a single-key object whose value
is a scalar. -/
theorem calc_nest_scalar (w : Json) (c : Nat) (hc : c ≤ 50) (hw : w.isComplex = false) :
    calculateJsonComplexity (Json.obj [("nested", w)]) c = (c, 1) := by
  have hc' : ¬ c > 50 := by omega
  rw [calculateJsonComplexity]
  simp [hc', processObjectComplexity, hw]

/-- Scored depth of a synthetic nest: a nest of `d + 1` levels at current
depth `c ≤ 50` scores depth `min (c + d) 50` (the breaker caps it). -/
theorem nestObj_depth : ∀ (d c : Nat), c ≤ 50 →
    (calculateJsonComplexity (nestObj (d + 1)) c).1 = Nat.min (c + d) 50
  | 0, c, hc => by
      rw [show nestObj 1 = Json.obj [("nested", nestObj 0)] from rfl,
        calc_nest_scalar (nestObj 0) c hc rfl]
      simp [Nat.min_def]
      split_ifs
      omega
  | d + 1, c, hc => by
      rcases Nat.lt_or_ge c 50 with h50 | h50
      · have hih := nestObj_depth d (c + 1) (by omega)
        rw [show nestObj (d + 2) = Json.obj [("nested", nestObj (d + 1))] from rfl,
          calc_nest_complex (nestObj (d + 1)) c hc rfl]
        simp only [hih]
        simp [Nat.max_def, Nat.min_def]
        split_ifs <;> omega
      · have hc50 : c = 50 := by omega
        subst hc50
        rw [show nestObj (d + 2) = Json.obj [("nested", nestObj (d + 1))] from rfl,
          calc_nest_complex (nestObj (d + 1)) 50 (by omega) rfl,
          calc_breaker (nestObj (d + 1)) 51 (by omega)]
        simp [Nat.max_def, Nat.min_def]

/-- Scored field count of a synthetic nest below the breaker: a nest of
`d + 1` levels at current depth `c` with `c + d ≤ 50` scores `d + 1`
fields (one key per level). -/
theorem nestObj_fields : ∀ (d c : Nat), c + d ≤ 50 →
    (calculateJsonComplexity (nestObj (d + 1)) c).2 = d + 1
  | 0, c, hc => by
      rw [show nestObj 1 = Json.obj [("nested", nestObj 0)] from rfl,
        calc_nest_scalar (nestObj 0) c (by omega) rfl]
  | d + 1, c, hc => by
      have hih := nestObj_fields d (c + 1) (by omega)
      rw [show nestObj (d + 2) = Json.obj [("nested", nestObj (d + 1))] from rfl,
        calc_nest_complex (nestObj (d + 1)) c (by omega) rfl]
      simp only [hih]
      omega

/-! ### Claims about the complexity scorer and the DoS-protection stage -/

/-- C4: for every value and every currentDepth greater than 50, the
complexity scorer returns (depth 50, fieldCount 0) immediately, without
recursing into the value; the embedding is a total recursive function,
so the breaker equation holds on every finite input tree. -/
theorem c4_circuit_breaker (v : Json) (d : Nat) (h : 50 < d) :
    calculateJsonComplexity v d = (50, 0) :=
  calc_breaker v d h

/-- Witness for C4 at a concrete value and depth 51. -/
theorem c4_circuit_breaker_witness :
    calculateJsonComplexity (Json.arr [Json.num 1, Json.obj [("a", Json.null)]]) 51 = (50, 0) :=
  c4_circuit_breaker _ 51 (by decide)

/-- C2 (amended): the scorer equals the spec's recursive reference
definition whenever the recursion stays below the depth-50 circuit
breaker, in particular whenever currentDepth plus the structural height
of the value is at most 50; beyond that the breaker of C4 overrides the
reference definition. -/
theorem c2_scorer_eq_reference (v : Json) (d : Nat) (h : d + jsonHeight v ≤ 50) :
    calculateJsonComplexity v d = measureSpec v d :=
  calcEqSpec v d h

/-- Witness for C2 (amended) at a concrete small tree and depth 2. -/
theorem c2_scorer_eq_reference_witness :
    calculateJsonComplexity (Json.obj [("a", Json.arr [Json.num 3, Json.str "x"])]) 2 =
      measureSpec (Json.obj [("a", Json.arr [Json.num 3, Json.str "x"])]) 2 :=
  c2_scorer_eq_reference _ 2 (by decide)

/-- C2 counterexample: at currentDepth 51 the scorer returns (50, 0) for
a scalar, while the claim's reference definition demands (51, 0): the
claimed equality fails once the circuit breaker fires. -/
theorem c2_counterexample :
    calculateJsonComplexity (Json.str "x") 51 = (50, 0) ∧
    measureSpec (Json.str "x") 51 = (51, 0) ∧
    calculateJsonComplexity (Json.str "x") 51 ≠ measureSpec (Json.str "x") 51 := by
  refine ⟨rfl, rfl, ?_⟩
  decide

/-- A nest of at least one level is an object, hence complex. -/
theorem nestObj_isComplex (d : Nat) : (nestObj (d + 1)).isComplex = true := rfl

/-- C3 (amended): a synthetically nested single-key object with n levels
of object nesting is rejected by the DoS stage with HTTP 400
EXCESSIVE_NESTING exactly when n exceeds 21 — its scored depth is
n - 1, compared against the ceiling 20 — and passes for n at most 21,
in particular at the boundary. -/
theorem c3_nesting_boundary (n : Nat) (req : Req)
    (hcl : req.contentLength ≤ 5 * 1024 * 1024)
    (hb : req.body = some (nestObj n)) :
    (21 < n → dosProtection req = StageResult.reject 400 "EXCESSIVE_NESTING" none) ∧
    (n ≤ 21 → dosProtection req = StageResult.next req) := by
  have hcl' : ¬ req.contentLength > 5 * 1024 * 1024 := by omega
  cases n with
  | zero =>
      refine ⟨fun h => by omega, fun _ => ?_⟩
      simp [dosProtection, hcl', hb, nestObj, Json.isComplex]
  | succ d =>
      have hdep := nestObj_depth d 0 (by omega)
      constructor
      · intro h
        have hgt : (calculateJsonComplexity (nestObj (d + 1)) 0).1 > 20 := by
          rw [hdep]
          simp [Nat.min_def]
          split_ifs <;> omega
        simp [dosProtection, hcl', hb, nestObj_isComplex, hgt]
      · intro h
        have h1 : ¬ (calculateJsonComplexity (nestObj (d + 1)) 0).1 > 20 := by
          rw [hdep]
          simp [Nat.min_def]
          split_ifs <;> omega
        have h2 : ¬ (calculateJsonComplexity (nestObj (d + 1)) 0).2 > 5000 := by
          rw [nestObj_fields d 0 (by omega)]
          omega
        simp [dosProtection, hcl', hb, nestObj_isComplex, h1, h2]

/-- Witness for C3 (amended): a 25-level nest is rejected with
EXCESSIVE_NESTING; a 21-level nest passes. -/
theorem c3_nesting_boundary_witness :
    dosProtection ⟨100, some (nestObj 25), Json.obj [], [], none⟩ =
      StageResult.reject 400 "EXCESSIVE_NESTING" none ∧
    dosProtection ⟨100, some (nestObj 21), Json.obj [], [], none⟩ =
      StageResult.next ⟨100, some (nestObj 21), Json.obj [], [], none⟩ :=
  ⟨(c3_nesting_boundary 25 _ (by decide) rfl).1 (by decide),
   (c3_nesting_boundary 21 _ (by decide) rfl).2 (by decide)⟩

/-- C3 counterexample: a 21-level nest has depth 21 > 20, yet the DoS
stage does not reject it (its scored depth is 20, inside the ceiling),
contradicting the claim that every depth d > 20 yields
EXCESSIVE_NESTING. -/
theorem c3_counterexample :
    20 < 21 ∧
    dosProtection ⟨0, some (nestObj 21), Json.obj [], [], none⟩ =
      StageResult.next ⟨0, some (nestObj 21), Json.obj [], [], none⟩ ∧
    dosProtection ⟨0, some (nestObj 21), Json.obj [], [], none⟩ ≠
      StageResult.reject 400 "EXCESSIVE_NESTING" none := by
  refine ⟨by omega, rfl, fun h => ?_⟩
  rw [show dosProtection ⟨0, some (nestObj 21), Json.obj [], [], none⟩ =
      StageResult.next ⟨0, some (nestObj 21), Json.obj [], [], none⟩ from rfl] at h
  exact StageResult.noConfusion h

/-- C9: when the parsed body is absent or not a (non-null) object or
array — a string, number, boolean or null — the DoS stage never
evaluates the nesting or field-count limits: it applies exactly the
declared content-length check and otherwise continues. -/
theorem c9_scalar_body_skips_complexity (req : Req)
    (h : ∀ v, req.body = some v → v.isComplex = false) :
    dosProtection req =
      if req.contentLength > 5 * 1024 * 1024 then
        StageResult.reject 413 "PAYLOAD_TOO_LARGE" none
      else StageResult.next req := by
  rcases hb : req.body with _ | v
  · simp only [dosProtection]
    split
    · rfl
    · rw [hb]
  · have hv := h v hb
    simp only [dosProtection]
    split
    · rfl
    · rw [hb]
      simp [hv]

/-- Witness for C9: a body that is a plain string full of SQL-looking,
deeply "nested-looking" content is passed through untouched by the DoS
stage. -/
theorem c9_scalar_body_skips_complexity_witness :
    dosProtection ⟨10, some (Json.str "SELECT a FROM b"), Json.obj [], [], none⟩ =
      StageResult.next ⟨10, some (Json.str "SELECT a FROM b"), Json.obj [], [], none⟩ :=
  c9_scalar_body_skips_complexity _
    (fun v hv => by injection hv with h1; rw [← h1]; rfl)

/-! ### The sanitizer -/

mutual
/-- Modelled from the spec: the string-level sanitizer of the XSS stage
is the external DOMPurify library (`DOMPurify.sanitize` with
`ALLOWED_TAGS: []`, `ALLOWED_ATTR: []`, `KEEP_CONTENT: true`), which is
a dependency, not repository code; per the spec it strips markup/script
content from a string while preserving visible text.  `stripTags`
realises that contract: characters outside tags are kept, and
everything from an opening angle bracket to the next closing one is
dropped. -/
def stripTags : List Char → List Char
  | [] => []
  | c :: cs => if c = '<' then dropTag cs else c :: stripTags cs

/-- Skip the remainder of a tag, resuming after the closing angle
bracket (helper of `stripTags`). -/
def dropTag : List Char → List Char
  | [] => []
  | c :: cs => if c = '>' then stripTags cs else dropTag cs
end

/-- Modelled from the spec: HTML-strip a string (stand-in for the
DOMPurify call configured with no allowed tags or attributes). -/
def htmlStrip (s : String) : String := String.mk (stripTags s.data)

/-- JavaScript property assignment `o[k] = v` on an object represented
as an ordered entry list: an existing key keeps its position and gets
the new value; a fresh key is appended. -/
def objInsert : List (String × Json) → String → Json → List (String × Json)
  | [], k, v => [(k, v)]
  | (k', v') :: rest, k, v =>
      if k' = k then (k', v) :: rest
      else (k', v') :: objInsert rest k v

mutual
/-- Embedding of `sanitizeObject` (security.ts, lines 148-175),
parameterized by the string sanitizer `f` (the DOMPurify call in the
source): strings are sanitized, arrays mapped elementwise, objects
rebuilt entry by entry with a sanitized key and a recursively sanitized
value; all other values pass through. -/
def sanitizeObject (f : String → String) : Json → Json
  | .str s => .str (f s)
  | .arr xs => .arr (sanitizeList f xs)
  | .obj es => .obj (sanitizeEntries f es [])
  | v => v

/-- Elementwise sanitization of an array (`obj.map(sanitizeObject)`). -/
def sanitizeList (f : String → String) : List Json → List Json
  | [] => []
  | x :: xs => sanitizeObject f x :: sanitizeList f xs

/-- The `for (const [key, value] of Object.entries(obj))` loop of the
source: insert each sanitized key with its sanitized value into the
accumulator object built from `{}`. -/
def sanitizeEntries (f : String → String) :
    List (String × Json) → List (String × Json) → List (String × Json)
  | [], acc => acc
  | (k, v) :: es, acc => sanitizeEntries f es (objInsert acc (f k) (sanitizeObject f v))
end

/-! ### The SQL-injection stage -/

mutual
/-- Embedding of the per-value scan `checkForSqlInjection` (security.ts,
lines 189-210), parameterized by the compiled regex tests of the
source: `pat` abstracts "some element of `suspiciousPatterns` matches"
and `legit` abstracts the `legitTerms` allow-list test applied to the
trimmed string.  Strings shorter than 10 characters are dismissed
before any pattern test; arrays are scanned elementwise, objects
value-wise; other scalars never match. -/
def checkForSqlInjection (pat legit : String → Bool) : Json → Bool
  | .str s =>
      if s.length < 10 then false
      else if legit s.trim then false
      else pat s
  | .arr xs => sqlScanList pat legit xs
  | .obj es => sqlScanEntries pat legit es
  | _ => false

/-- `Array.prototype.some` over array elements for the SQL scan. -/
def sqlScanList (pat legit : String → Bool) : List Json → Bool
  | [] => false
  | x :: xs => checkForSqlInjection pat legit x || sqlScanList pat legit xs

/-- `Object.values(...).some` over entry values for the SQL scan. -/
def sqlScanEntries (pat legit : String → Bool) : List (String × Json) → Bool
  | [] => false
  | (_, v) :: es => checkForSqlInjection pat legit v || sqlScanEntries pat legit es
end

/-- Embedding of `sqlInjectionProtection` (security.ts, lines 212-228):
a matching body rejects with SUSPICIOUS_INPUT, then a matching query
rejects with SUSPICIOUS_QUERY, otherwise continue. -/
def sqlInjectionProtection (pat legit : String → Bool) : Stage := fun req =>
  if (match req.body with
      | some b => checkForSqlInjection pat legit b
      | none => false) then
    .reject 400 "SUSPICIOUS_INPUT" none
  else if checkForSqlInjection pat legit req.query then
    .reject 400 "SUSPICIOUS_QUERY" none
  else .next req

/-! ### The header-flood stage -/

/-- The source's per-header test
`typeof value === 'string' && value.length > 8192`. -/
def headerValTooLong : HeaderVal → Bool
  | .str s => decide (8192 < s.length)
  | .list _ => false

/-- First header (in iteration order) whose value is an over-long
string, with its name. -/
def findLongHeader : List (String × HeaderVal) → Option String
  | [] => none
  | (k, v) :: rest => if headerValTooLong v then some k else findLongHeader rest

/-- Embedding of `headerFloodProtection` (security.ts, lines 423-451):
more than 100 header entries rejects with HEADER_FLOOD_DETECTED;
otherwise the first string header value longer than 8192 characters
rejects with HEADER_TOO_LONG, reporting the offending header's name. -/
def headerFloodProtection : Stage := fun req =>
  if req.headers.length > 100 then
    .reject 400 "HEADER_FLOOD_DETECTED" none
  else
    match findLongHeader req.headers with
    | some k => .reject 400 "HEADER_TOO_LONG" (some k)
    | none => .next req

/-! ### The cookie stage -/

/-- Substring machinery for the cookie patterns: does the character
list start with the pattern? -/
def startsWithList : List Char → List Char → Bool
  | [], _ => true
  | _ :: _, [] => false
  | p :: ps, c :: cs => p == c && startsWithList ps cs

/-- Does the character list contain the pattern as a contiguous
substring? -/
def containsSubList (pat : List Char) : List Char → Bool
  | [] => startsWithList pat []
  | c :: cs => startsWithList pat (c :: cs) || containsSubList pat cs

/-- Case-sensitive substring test on strings. -/
def strContains (hay pat : String) : Bool := containsSubList pat.data hay.data

/-- Case-insensitive substring test: the `/i` regex flag applied to an
all-lowercase literal pattern. -/
def strContainsCI (hay pat : String) : Bool :=
  containsSubList pat.data (hay.data.map Char.toLower)

/-- The control-character scan of `cookieParsingProtection`
(security.ts, lines 500-503): any character with code 0-31 or
127-159. -/
def hasControlChars (s : String) : Bool :=
  s.data.any fun c =>
    decide (c.toNat ≤ 31) || (decide (127 ≤ c.toNat) && decide (c.toNat ≤ 159))

/-- The `maliciousCookiePatterns` tests (security.ts, lines 513-520):
each regex literal there is a plain substring pattern
(case-insensitive where the `/i` flag is set), checked in order. -/
def maliciousCookie (c : String) : Bool :=
  strContainsCI c "__proto__[" || strContainsCI c "constructor." ||
  strContainsCI c "javascript:" || strContainsCI c "document." ||
  strContains c "../" || strContains c "..\\" || strContainsCI c "<script"

/-- JS `String.prototype.split` on a single-character separator,
keeping empty segments. -/
def splitOnChar (sep : Char) : List Char → List (List Char)
  | [] => [[]]
  | c :: cs =>
      if c = sep then [] :: splitOnChar sep cs
      else
        match splitOnChar sep cs with
        | [] => [[c]]
        | g :: gs => (c :: g) :: gs

/-- The per-cookie-entry over-length test of the source:
`cookie.length > 4096` over the `cookieHeader.split(';')` entries. -/
def anyCookieTooLong (c : String) : Bool :=
  (splitOnChar ';' c.data).any fun e => decide (4096 < e.length)

/-- Embedding of `cookieParsingProtection` (security.ts, lines
495-543): an absent or empty (falsy) cookie header passes; otherwise
control characters reject MALICIOUS_COOKIE, then the malicious
substring patterns reject MALICIOUS_COOKIE, then an over-long cookie
entry rejects COOKIE_TOO_LONG; otherwise continue. -/
def cookieParsingProtection : Stage := fun req =>
  match req.cookieHeader with
  | none => .next req
  | some c =>
      if c.data.isEmpty then .next req
      else if hasControlChars c then .reject 400 "MALICIOUS_COOKIE" none
      else if maliciousCookie c then .reject 400 "MALICIOUS_COOKIE" none
      else if anyCookieTooLong c then .reject 400 "COOKIE_TOO_LONG" none
      else .next req

example : splitOnChar ';' "a=1;b=22".data = ["a=1".data, "b=22".data] := rfl
example : htmlStrip "<script>alert(1)</script>hi" = "alert(1)hi" := rfl
example : maliciousCookie "a=JavaScript:x" = true := rfl
example : hasControlChars "ab" = false := rfl

/-! ### Claim C1: the pipeline short-circuits on the first rejection -/

/-- C1: for a request that violates several attack families at once,
the terminal verdict of the pipeline is exactly the single rejection of
the earliest-configured stage that rejects: if every stage before `s`
continues (with `req'` the possibly-mutated request reaching `s`) and
`s` rejects, then the whole pipeline returns that one verdict whatever
stages follow — the later stages are never run, no second code is ever
reported, and the request does not pass through. -/
theorem c1_first_reject_wins (pre post : List Stage) (s : Stage) (req req' : Req)
    (status : Nat) (code : String) (detail : Option String)
    (hpre : runPipeline pre req = StageResult.next req')
    (hs : s req' = StageResult.reject status code detail) :
    runPipeline (pre ++ s :: post) req = StageResult.reject status code detail := by
  induction pre generalizing req with
  | nil =>
      simp only [runPipeline] at hpre
      injection hpre with h
      subst h
      simp [runPipeline, hs]
  | cons p pre ih =>
      simp only [List.cons_append, runPipeline] at hpre ⊢
      cases hp : p req with
      | next r =>
          simp only [hp] at hpre ⊢
          exact ih r hpre
      | reject st c dt =>
          rw [hp] at hpre
          exact StageResult.noConfusion hpre

/-- Witness for C1: a request whose body is nested 25 levels deep and
whose cookie header carries a malicious pattern (two violated families)
run through the pipeline [dosProtection, headerFloodProtection,
cookieParsingProtection] yields exactly the earliest stage's verdict,
EXCESSIVE_NESTING. -/
theorem c1_first_reject_wins_witness :
    runPipeline [dosProtection, headerFloodProtection, cookieParsingProtection]
      ⟨64, some (nestObj 25), Json.obj [], [("cookie", HeaderVal.str "a=javascript:x")],
        some "a=javascript:x"⟩ =
      StageResult.reject 400 "EXCESSIVE_NESTING" none :=
  c1_first_reject_wins [] [headerFloodProtection, cookieParsingProtection] dosProtection
    _ _ 400 "EXCESSIVE_NESTING" none rfl rfl

/-! ### Claim C6: over-long header values -/

/-- If some header has an over-long string value, `findLongHeader`
finds one (the first in order). -/
theorem findLongHeader_finds : ∀ (hs : List (String × HeaderVal)) (k v : String),
    (k, HeaderVal.str v) ∈ hs → 8192 < v.length →
    ∃ k' v', findLongHeader hs = some k' ∧ (k', HeaderVal.str v') ∈ hs ∧ 8192 < v'.length
  | [], k, v, hmem, _ => absurd hmem (List.not_mem_nil _)
  | (k0, v0) :: rest, k, v, hmem, hlen => by
      by_cases h0 : headerValTooLong v0
      · cases v0 with
        | str s0 =>
            refine ⟨k0, s0, ?_, List.mem_cons_self _ _, ?_⟩
            · simp [findLongHeader, h0]
            · simpa [headerValTooLong] using h0
        | list vs => simp [headerValTooLong] at h0
      · rcases List.mem_cons.mp hmem with heq | hmem'
        · exfalso
          have hv0 : v0 = HeaderVal.str v := (congrArg Prod.snd heq).symm
          rw [hv0] at h0
          exact h0 (by simp [headerValTooLong, hlen])
        · rcases findLongHeader_finds rest k v hmem' hlen with ⟨k', v', hf, hm, hl⟩
          exact ⟨k', v', by simp [findLongHeader, h0, hf], List.mem_cons_of_mem _ hm, hl⟩

/-! ### Sanitizer facts: the stripped output contains no opening bracket -/

mutual
theorem stripTags_no_lt : ∀ l : List Char, '<' ∉ stripTags l
  | [] => by simp [stripTags]
  | c :: cs => by
      by_cases h : c = '<'
      · rw [stripTags, if_pos h]
        exact dropTag_no_lt cs
      · rw [stripTags, if_neg h]
        intro hmem
        rcases List.mem_cons.mp hmem with h1 | h2
        · exact h h1.symm
        · exact stripTags_no_lt cs h2

theorem dropTag_no_lt : ∀ l : List Char, '<' ∉ dropTag l
  | [] => by simp [dropTag]
  | c :: cs => by
      by_cases h : c = '>'
      · rw [dropTag, if_pos h]
        exact stripTags_no_lt cs
      · rw [dropTag, if_neg h]
        exact dropTag_no_lt cs
end

theorem stripTags_of_no_lt : ∀ l : List Char, (∀ c ∈ l, c ≠ '<') → stripTags l = l
  | [], _ => rfl
  | c :: cs, h => by
      have hc : c ≠ '<' := h c (List.mem_cons_self _ _)
      rw [stripTags, if_neg hc,
        stripTags_of_no_lt cs (fun x hx => h x (List.mem_cons_of_mem _ hx))]

theorem stripTags_idem (l : List Char) : stripTags (stripTags l) = stripTags l :=
  stripTags_of_no_lt _ (fun _ hc he => stripTags_no_lt l (he ▸ hc))

theorem htmlStrip_idem (s : String) : htmlStrip (htmlStrip s) = htmlStrip s := by
  show String.mk (stripTags (String.mk (stripTags s.data)).data) = String.mk (stripTags s.data)
  rw [show (String.mk (stripTags s.data)).data = stripTags s.data from rfl, stripTags_idem]

/-! ### Sanitized trees: a predicate characterising fixed points of the sanitizer -/

mutual
/-- A tree is sanitized (w.r.t. string sanitizer `f`) when every string
in it — object keys included — is a fixed point of `f` and every object
has pairwise-distinct keys. -/
def IsSanitized (f : String → String) : Json → Prop
  | .str s => f s = s
  | .arr xs => SanitizedList f xs
  | .obj es => (es.map Prod.fst).Nodup ∧ SanitizedEntries f es
  | _ => True

/-- All elements sanitized. -/
def SanitizedList (f : String → String) : List Json → Prop
  | [] => True
  | x :: xs => IsSanitized f x ∧ SanitizedList f xs

/-- All keys fixed by `f` and all values sanitized. -/
def SanitizedEntries (f : String → String) : List (String × Json) → Prop
  | [] => True
  | (k, v) :: es => f k = k ∧ IsSanitized f v ∧ SanitizedEntries f es
end

theorem objInsert_keys (l : List (String × Json)) (k : String) (v : Json) :
    (objInsert l k v).map Prod.fst =
      if k ∈ l.map Prod.fst then l.map Prod.fst else l.map Prod.fst ++ [k] := by
  induction l with
  | nil => simp [objInsert]
  | cons p rest ih =>
      obtain ⟨k', v'⟩ := p
      by_cases h : k' = k
      · subst h
        simp [objInsert]
      · by_cases hm : k ∈ rest.map Prod.fst
        · simp [objInsert, h, ih, hm, fun hh : k = k' => h hh.symm]
        · simp [objInsert, h, ih, hm]
          rw [if_neg (fun hh : k = k' => h hh.symm)]

theorem objInsert_nodup (l : List (String × Json)) (k : String) (v : Json)
    (h : (l.map Prod.fst).Nodup) : ((objInsert l k v).map Prod.fst).Nodup := by
  rw [objInsert_keys]
  split_ifs with hm
  · exact h
  · simp [List.nodup_append, h, hm]

theorem objInsert_sanitized (f : String → String) (l : List (String × Json))
    (k : String) (v : Json) (hl : SanitizedEntries f l) (hk : f k = k)
    (hv : IsSanitized f v) : SanitizedEntries f (objInsert l k v) := by
  induction l with
  | nil => exact ⟨hk, hv, trivial⟩
  | cons p rest ih =>
      obtain ⟨k', v'⟩ := p
      obtain ⟨hk', hv', hrest⟩ := hl
      by_cases h : k' = k
      · rw [objInsert, if_pos h]
        exact ⟨hk', hv, hrest⟩
      · rw [objInsert, if_neg h]
        exact ⟨hk', hv', ih hrest⟩

theorem sanitizeEntries_good (f : String → String) :
    ∀ (es acc : List (String × Json)), (acc.map Prod.fst).Nodup →
    SanitizedEntries f acc →
    (∀ p ∈ es, f (f p.1) = f p.1) →
    (∀ p ∈ es, IsSanitized f (sanitizeObject f p.2)) →
    ((sanitizeEntries f es acc).map Prod.fst).Nodup ∧
      SanitizedEntries f (sanitizeEntries f es acc)
  | [], acc, h1, h2, _, _ => ⟨h1, h2⟩
  | (k, v) :: es, acc, h1, h2, hkk, h3 => by
      rw [sanitizeEntries]
      exact sanitizeEntries_good f es (objInsert acc (f k) (sanitizeObject f v))
        (objInsert_nodup _ _ _ h1)
        (objInsert_sanitized f _ _ _ h2 (hkk (k, v) (List.mem_cons_self _ _))
          (h3 (k, v) (List.mem_cons_self _ _)))
        (fun p hp => hkk p (List.mem_cons_of_mem _ hp))
        (fun p hp => h3 p (List.mem_cons_of_mem _ hp))

mutual
/-- When the string sanitizer is idempotent, the output of the
sanitizer is a sanitized tree. -/
theorem sanitize_isSanitized (f : String → String) (hf : ∀ s, f (f s) = f s) :
    ∀ v : Json, IsSanitized f (sanitizeObject f v)
  | .null => True.intro
  | .bool _ => True.intro
  | .num _ => True.intro
  | .str s => hf s
  | .arr xs => by
      rw [sanitizeObject]
      exact sanitizeList_isSanitized f hf xs
  | .obj es => by
      rw [sanitizeObject]
      exact sanitizeEntries_good f es [] (by simp) trivial
        (fun p _ => hf p.1) (sanitizeEntriesAll_isSanitized f hf es)

theorem sanitizeList_isSanitized (f : String → String) (hf : ∀ s, f (f s) = f s) :
    ∀ xs : List Json, SanitizedList f (sanitizeList f xs)
  | [] => trivial
  | x :: xs => by
      rw [sanitizeList]
      exact ⟨sanitize_isSanitized f hf x, sanitizeList_isSanitized f hf xs⟩

theorem sanitizeEntriesAll_isSanitized (f : String → String) (hf : ∀ s, f (f s) = f s) :
    ∀ es : List (String × Json), ∀ p ∈ es, IsSanitized f (sanitizeObject f p.2)
  | [], p, hp => absurd hp (List.not_mem_nil _)
  | (k, v) :: es, p, hp => by
      rcases List.mem_cons.mp hp with h | h
      · rw [h]
        exact sanitize_isSanitized f hf v
      · exact sanitizeEntriesAll_isSanitized f hf es p h
end

theorem objInsert_fresh (l : List (String × Json)) (k : String) (v : Json)
    (h : k ∉ l.map Prod.fst) : objInsert l k v = l ++ [(k, v)] := by
  induction l with
  | nil => rfl
  | cons p rest ih =>
      obtain ⟨k', v'⟩ := p
      simp only [List.map_cons, List.mem_cons] at h
      push_neg at h
      rw [objInsert, if_neg (fun hh : k' = k => h.1 hh.symm), ih h.2]
      rfl

theorem sanitizeEntries_fixed (f : String → String) :
    ∀ (es acc : List (String × Json)),
    (acc.map Prod.fst ++ es.map Prod.fst).Nodup →
    SanitizedEntries f es →
    (∀ p ∈ es, sanitizeObject f p.2 = p.2) →
    sanitizeEntries f es acc = acc ++ es
  | [], acc, _, _, _ => by simp [sanitizeEntries]
  | (k, v) :: es, acc, hnd, hs, hfix => by
      obtain ⟨hk, hv, hrest⟩ := hs
      have hkfresh : k ∉ acc.map Prod.fst := by
        simp only [List.map_cons] at hnd
        rcases List.nodup_append.mp hnd with ⟨_, _, hdisj⟩
        intro hin
        exact hdisj hin (List.mem_cons_self _ _)
      rw [sanitizeEntries, hk, hfix (k, v) (List.mem_cons_self _ _),
        objInsert_fresh acc k v hkfresh,
        sanitizeEntries_fixed f es (acc ++ [(k, v)])
          (by simpa [List.append_assoc] using hnd) hrest
          (fun p hp => hfix p (List.mem_cons_of_mem _ hp))]
      simp

mutual
/-- A sanitized tree is a fixed point of the sanitizer. -/
theorem sanitized_fixed (f : String → String) :
    ∀ v : Json, IsSanitized f v → sanitizeObject f v = v
  | .null, _ => rfl
  | .bool _, _ => rfl
  | .num _, _ => rfl
  | .str _, h => congrArg Json.str h
  | .arr xs, h => by
      rw [sanitizeObject]
      exact congrArg Json.arr (sanitizedList_fixed f xs h)
  | .obj es, h => by
      rw [sanitizeObject]
      obtain ⟨hnd, hse⟩ := h
      rw [sanitizeEntries_fixed f es [] (by simpa using hnd) hse
        (sanitizedEntriesAll_fixed f es hse)]
      simp

theorem sanitizedList_fixed (f : String → String) :
    ∀ xs : List Json, SanitizedList f xs → sanitizeList f xs = xs
  | [], _ => rfl
  | x :: xs, h => by
      rw [sanitizeList, sanitized_fixed f x h.1, sanitizedList_fixed f xs h.2]

theorem sanitizedEntriesAll_fixed (f : String → String) :
    ∀ es : List (String × Json), SanitizedEntries f es →
      ∀ p ∈ es, sanitizeObject f p.2 = p.2
  | [], _, p, hp => absurd hp (List.not_mem_nil _)
  | (k, v) :: es, h, p, hp => by
      rcases List.mem_cons.mp hp with h1 | h1
      · rw [h1]
        exact sanitized_fixed f v h.2.1
      · exact sanitizedEntriesAll_fixed f es h.2.2 p h1
end

/-! ### Claim C5: the sanitizer is idempotent -/

/-- C5: sanitization is idempotent — applying the sanitizer twice to
any JSON-compatible tree yields the same result as applying it once,
where the sanitizer deep-clones the tree replacing every string (object
keys included) with its HTML-stripped form. -/
theorem c5_sanitize_idempotent (v : Json) :
    sanitizeObject htmlStrip (sanitizeObject htmlStrip v) = sanitizeObject htmlStrip v :=
  sanitized_fixed htmlStrip _ (sanitize_isSanitized htmlStrip htmlStrip_idem v)

/-! ### Claim C10: object keys are sanitized and collisions drop fields -/

/-- The keys of a JSON value (empty for non-objects). -/
def jsonKeys : Json → List String
  | .obj es => es.map Prod.fst
  | _ => []

theorem sanitizeEntries_keys_sub (f : String → String) :
    ∀ (es acc : List (String × Json)),
    (sanitizeEntries f es acc).map Prod.fst ⊆
      acc.map Prod.fst ++ es.map (fun p => f p.1)
  | [], acc => by simp [sanitizeEntries]
  | (k, v) :: es, acc => by
      rw [sanitizeEntries]
      intro a ha
      have hsub := sanitizeEntries_keys_sub f es (objInsert acc (f k) (sanitizeObject f v)) ha
      rw [List.mem_append, objInsert_keys] at hsub
      simp only [List.map_cons, List.mem_append, List.mem_cons]
      rcases hsub with h1 | h2
      · split_ifs at h1 with hm
        · exact Or.inl h1
        · rcases List.mem_append.mp h1 with h1a | h1b
          · exact Or.inl h1a
          · exact Or.inr (Or.inl (List.mem_singleton.mp h1b))
      · exact Or.inr (Or.inr h2)

/-- C10: sanitizing an object sanitizes its keys as well as its values —
every key of the sanitized object is the HTML-stripped form of some
original key — and when two distinct original keys sanitize to the same
string, the result keeps a single entry holding the later key's
(sanitized) value, so the sanitized object can have strictly fewer
fields than the input. -/
theorem c10_keys_sanitized :
    (∀ (es : List (String × Json)) (k : String),
        k ∈ jsonKeys (sanitizeObject htmlStrip (Json.obj es)) →
        ∃ k0, k0 ∈ es.map Prod.fst ∧ k = htmlStrip k0) ∧
    (∀ (k1 k2 : String) (v1 v2 : Json), k1 ≠ k2 → htmlStrip k1 = htmlStrip k2 →
        sanitizeObject htmlStrip (Json.obj [(k1, v1), (k2, v2)]) =
          Json.obj [(htmlStrip k1, sanitizeObject htmlStrip v2)]) := by
  constructor
  · intro es k hk
    have hk' : k ∈ (sanitizeEntries htmlStrip es []).map Prod.fst := hk
    have hsub := sanitizeEntries_keys_sub htmlStrip es [] hk'
    simp only [List.map_nil, List.nil_append, List.mem_map] at hsub
    obtain ⟨p, hp, heq⟩ := hsub
    exact ⟨p.1, List.mem_map_of_mem _ hp, heq.symm⟩
  · intro k1 k2 v1 v2 hne heq
    show Json.obj (sanitizeEntries htmlStrip [(k1, v1), (k2, v2)] []) = _
    simp only [sanitizeEntries, objInsert]
    rw [if_pos heq]

/-- Witness for C10: the keys "a<i>" and "a" both sanitize to "a"; the
sanitized object keeps one entry with the later value, dropping a
field. -/
theorem c10_keys_sanitized_witness :
    (∃ k0, k0 ∈ ["a<i>"] ∧ "a" = htmlStrip k0) ∧
    sanitizeObject htmlStrip (Json.obj [("a<i>", Json.num 1), ("a", Json.num 2)]) =
      Json.obj [("a", Json.num 2)] :=
  ⟨c10_keys_sanitized.1 [("a<i>", Json.num 1)] "a" (by decide),
   c10_keys_sanitized.2 "a<i>" "a" (Json.num 1) (Json.num 2) (by decide) (by decide)⟩

/-! ### Claim C6: over-long header values -/

/-- C6: for a request whose header count is within the 100 limit and in
which some header value is an over-long string (more than 8192
characters — for the Latin-1 header strings Node delivers this is the
byte length), the header governor rejects with HTTP 400
HEADER_TOO_LONG and reports the name of an offending header. -/
theorem c6_header_too_long (req : Req) (k v : String)
    (hcount : req.headers.length ≤ 100)
    (hmem : (k, HeaderVal.str v) ∈ req.headers)
    (hlen : 8192 < v.length) :
    ∃ k' v', headerFloodProtection req = StageResult.reject 400 "HEADER_TOO_LONG" (some k') ∧
      (k', HeaderVal.str v') ∈ req.headers ∧ 8192 < v'.length := by
  rcases findLongHeader_finds req.headers k v hmem hlen with ⟨k', v', hf, hm, hl⟩
  refine ⟨k', v', ?_, hm, hl⟩
  have hc : ¬ req.headers.length > 100 := by omega
  simp [headerFloodProtection, hc, hf]

/-- The length of a string built from a replicated character. -/
theorem mk_replicate_length (n : Nat) (c : Char) :
    (String.mk (List.replicate n c)).length = n := by
  show (List.replicate n c).length = n
  rw [List.length_replicate]

/-- An 8193-character header value for the C6 witness. -/
def bigHeaderVal : String := String.mk (List.replicate 8193 'b')

/-- Witness for C6: a concrete request with two headers, one of which
is an 8193-character string, is rejected with HEADER_TOO_LONG. -/
theorem c6_header_too_long_witness :
    ∃ k' v', headerFloodProtection
        ⟨0, none, Json.obj [],
          [("host", HeaderVal.str "localhost"), ("x-big", HeaderVal.str bigHeaderVal)],
          none⟩ =
        StageResult.reject 400 "HEADER_TOO_LONG" (some k') ∧
      (k', HeaderVal.str v') ∈
        [("host", HeaderVal.str "localhost"), ("x-big", HeaderVal.str bigHeaderVal)] ∧
      8192 < v'.length :=
  c6_header_too_long _ "x-big" bigHeaderVal (by simp)
    (List.mem_cons_of_mem _ (List.mem_cons_self _ _))
    (by simp only [bigHeaderVal, mk_replicate_length]; omega)

/-! ### Claim C8: the SQL matcher's minimum-length gate -/

mutual
/-- Every string value reachable in the tree is shorter than `n`. -/
def stringsShorter (n : Nat) : Json → Bool
  | .str s => decide (s.length < n)
  | .arr xs => stringsShorterList n xs
  | .obj es => stringsShorterEntries n es
  | _ => true

/-- All array elements have only short strings. -/
def stringsShorterList (n : Nat) : List Json → Bool
  | [] => true
  | x :: xs => stringsShorter n x && stringsShorterList n xs

/-- All entry values have only short strings. -/
def stringsShorterEntries (n : Nat) : List (String × Json) → Bool
  | [] => true
  | (_, v) :: es => stringsShorter n v && stringsShorterEntries n es
end

mutual
theorem sqlShort (pat legit : String → Bool) : ∀ v : Json,
    stringsShorter 10 v = true → checkForSqlInjection pat legit v = false
  | .null, _ => rfl
  | .bool _, _ => rfl
  | .num _, _ => rfl
  | .str s, h => by
      have hlen : s.length < 10 := by simpa [stringsShorter] using h
      simp [checkForSqlInjection, hlen]
  | .arr xs, h => by
      have h' : stringsShorterList 10 xs = true := h
      exact sqlShortList pat legit xs h'
  | .obj es, h => by
      have h' : stringsShorterEntries 10 es = true := h
      exact sqlShortEntries pat legit es h'

theorem sqlShortList (pat legit : String → Bool) : ∀ xs : List Json,
    stringsShorterList 10 xs = true → sqlScanList pat legit xs = false
  | [], _ => rfl
  | x :: xs, h => by
      rw [stringsShorterList, Bool.and_eq_true] at h
      rw [sqlScanList, sqlShort pat legit x h.1, sqlShortList pat legit xs h.2]
      rfl

theorem sqlShortEntries (pat legit : String → Bool) : ∀ es : List (String × Json),
    stringsShorterEntries 10 es = true → sqlScanEntries pat legit es = false
  | [], _ => rfl
  | (k, v) :: es, h => by
      rw [stringsShorterEntries, Bool.and_eq_true] at h
      rw [sqlScanEntries, sqlShort pat legit v h.1, sqlShortEntries pat legit es h.2]
      rfl
end

/-- C8: the SQL-injection matcher's minimum-length gate — a string
shorter than 10 characters is never flagged, whatever the pattern and
allow-list tests would say of it, and a request all of whose body and
query string values are shorter than 10 characters is never rejected by
the SQL-injection stage. -/
theorem c8_sql_min_length_gate :
    (∀ (pat legit : String → Bool) (s : String), s.length < 10 →
        checkForSqlInjection pat legit (Json.str s) = false) ∧
    (∀ (pat legit : String → Bool) (req : Req),
        (match req.body with
          | some b => stringsShorter 10 b
          | none => true) = true →
        stringsShorter 10 req.query = true →
        sqlInjectionProtection pat legit req = StageResult.next req) := by
  constructor
  · intro pat legit s h
    simp [checkForSqlInjection, h]
  · intro pat legit req hb hq
    have h1 : (match req.body with
        | some b => checkForSqlInjection pat legit b
        | none => false) = false := by
      rcases hrb : req.body with _ | b
      · rfl
      · rw [hrb] at hb
        exact sqlShort pat legit b hb
    have h2 := sqlShort pat legit req.query hq
    simp [sqlInjectionProtection, h1, h2]

/-- Witness for C8: a pattern test that flags everything still does not
flag an 8-character SQL-looking string, and a request whose body/query
strings are all short passes the stage under that same pattern test. -/
theorem c8_sql_min_length_gate_witness :
    checkForSqlInjection (fun _ => true) (fun _ => false) (Json.str "DROP WHE") = false ∧
    sqlInjectionProtection (fun _ => true) (fun _ => false)
        ⟨0, some (Json.obj [("email", Json.str "a@b.c"), ("n", Json.num 1)]),
          Json.obj [("q", Json.str "tiny")], [], none⟩ =
      StageResult.next ⟨0, some (Json.obj [("email", Json.str "a@b.c"), ("n", Json.num 1)]),
          Json.obj [("q", Json.str "tiny")], [], none⟩ :=
  ⟨c8_sql_min_length_gate.1 _ _ "DROP WHE" (by decide),
   c8_sql_min_length_gate.2 _ _ _ (by decide) (by decide)⟩

/-! ### Claim C7: cookie-length rejection and its interaction with the pattern check -/

theorem startsWith_chars : ∀ (pat l : List Char), startsWithList pat l = true →
    ∀ q ∈ pat, q ∈ l
  | [], _, _, q, hq => absurd hq (List.not_mem_nil _)
  | p :: ps, [], h, _, _ => by simp [startsWithList] at h
  | p :: ps, c :: cs, h, q, hq => by
      rw [startsWithList, Bool.and_eq_true] at h
      obtain ⟨h1, h2⟩ := h
      have hpc : p = c := by simpa using h1
      rcases List.mem_cons.mp hq with hq1 | hq2
      · rw [hq1, hpc]
        exact List.mem_cons_self _ _
      · exact List.mem_cons_of_mem _ (startsWith_chars ps cs h2 q hq2)

theorem containsSubList_chars : ∀ (pat l : List Char), containsSubList pat l = true →
    ∀ q ∈ pat, q ∈ l
  | pat, [], h, q, hq => by
      cases pat with
      | nil => exact absurd hq (List.not_mem_nil _)
      | cons p ps => simp [containsSubList, startsWithList] at h
  | pat, c :: cs, h, q, hq => by
      rw [containsSubList, Bool.or_eq_true] at h
      rcases h with h1 | h2
      · exact startsWith_chars pat (c :: cs) h1 q hq
      · exact List.mem_cons_of_mem _ (containsSubList_chars pat cs h2 q hq)

/-- A substring search fails whenever some pattern character does not
occur in the haystack at all. -/
theorem containsSubList_of_not_mem (pat l : List Char) (q : Char) (hq : q ∈ pat)
    (hnm : q ∉ l) : containsSubList pat l = false := by
  cases hcl : containsSubList pat l with
  | false => rfl
  | true => exact absurd (containsSubList_chars pat l hcl q hq) hnm

theorem startsWith_append : ∀ (pat rest : List Char),
    startsWithList pat (pat ++ rest) = true
  | [], _ => rfl
  | p :: ps, rest => by
      rw [List.cons_append, startsWithList, startsWith_append ps rest]
      simp

theorem containsSub_self : ∀ (pat rest : List Char),
    containsSubList pat (pat ++ rest) = true
  | [], [] => rfl
  | [], c :: cs => by simp [containsSubList, startsWithList]
  | p :: ps, rest => by
      have hsw := startsWith_append (p :: ps) rest
      simp only [List.cons_append] at hsw
      rw [List.cons_append, containsSubList, hsw]
      simp

theorem splitOnChar_no_sep : ∀ (sep : Char) (l : List Char), sep ∉ l →
    splitOnChar sep l = [l]
  | _, [], _ => rfl
  | sep, c :: cs, h => by
      have hc : ¬ c = sep := fun hh => h (hh ▸ List.mem_cons_self _ _)
      rw [splitOnChar, if_neg hc,
        splitOnChar_no_sep sep cs (fun hh => h (List.mem_cons_of_mem _ hh))]

theorem any_replicate_false (p : Char → Bool) (c : Char) (hp : p c = false) (n : Nat) :
    (List.replicate n c).any p = false := by
  induction n with
  | zero => rfl
  | succ n ih => simp [List.replicate_succ, hp, ih]

theorem not_mem_replicate_of_ne (q c : Char) (h : q ≠ c) (n : Nat) :
    q ∉ List.replicate n c :=
  fun hm => h (List.eq_of_mem_replicate hm)

theorem hasControl_replicate (n : Nat) :
    hasControlChars (String.mk (List.replicate n 'a')) = false := by
  show (List.replicate n 'a').any _ = false
  exact any_replicate_false _ 'a' (by decide) n

theorem maliciousCookie_replicate (n : Nat) :
    maliciousCookie (String.mk (List.replicate n 'a')) = false := by
  have hmap : (List.replicate n 'a').map Char.toLower = List.replicate n 'a' := by
    rw [List.map_replicate, show Char.toLower 'a' = 'a' from by decide]
  simp only [maliciousCookie, strContainsCI, strContains]
  rw [hmap,
    containsSubList_of_not_mem "__proto__[".data _ '_' (by decide)
      (not_mem_replicate_of_ne '_' 'a' (by decide) n),
    containsSubList_of_not_mem "constructor.".data _ 'c' (by decide)
      (not_mem_replicate_of_ne 'c' 'a' (by decide) n),
    containsSubList_of_not_mem "javascript:".data _ 'j' (by decide)
      (not_mem_replicate_of_ne 'j' 'a' (by decide) n),
    containsSubList_of_not_mem "document.".data _ 'd' (by decide)
      (not_mem_replicate_of_ne 'd' 'a' (by decide) n),
    containsSubList_of_not_mem "../".data _ '.' (by decide)
      (not_mem_replicate_of_ne '.' 'a' (by decide) n),
    containsSubList_of_not_mem "..\\".data _ '.' (by decide)
      (not_mem_replicate_of_ne '.' 'a' (by decide) n),
    containsSubList_of_not_mem "<script".data _ '<' (by decide)
      (not_mem_replicate_of_ne '<' 'a' (by decide) n)]
  rfl

theorem anyCookieTooLong_replicate :
    anyCookieTooLong (String.mk (List.replicate 4097 'a')) = true := by
  show ((splitOnChar ';' (List.replicate 4097 'a')).any _) = true
  rw [splitOnChar_no_sep ';' _ (not_mem_replicate_of_ne ';' 'a' (by decide) 4097)]
  simp only [List.any_cons, List.any_nil, List.length_replicate]
  decide

/-- C7 (amended): when the raw cookie header has no control characters,
matches none of the malicious-cookie substring patterns (which the
source checks first), and has a per-cookie entry longer than 4096
characters, the cookie governor rejects with HTTP 400
COOKIE_TOO_LONG. -/
theorem c7_cookie_too_long (req : Req) (c : String)
    (hc : req.cookieHeader = some c)
    (hctrl : hasControlChars c = false)
    (hmal : maliciousCookie c = false)
    (hlong : anyCookieTooLong c = true) :
    cookieParsingProtection req = StageResult.reject 400 "COOKIE_TOO_LONG" none := by
  have hne : c.data.isEmpty = false := by
    rcases hdata : c.data with _ | ⟨ch, rest⟩
    · exfalso
      have hf : anyCookieTooLong c = false := by
        simp [anyCookieTooLong, hdata, splitOnChar]
      rw [hlong] at hf
      exact Bool.noConfusion hf
    · simp [hdata]
  simp [cookieParsingProtection, hc, hne, hctrl, hmal, hlong]

/-- A 4097-character benign cookie for the C7 witness. -/
def goodLongCookie : String := String.mk (List.replicate 4097 'a')

/-- Witness for C7 (amended): a benign 4097-character cookie entry is
rejected with COOKIE_TOO_LONG. -/
theorem c7_cookie_too_long_witness :
    cookieParsingProtection ⟨0, none, Json.obj [], [], some goodLongCookie⟩ =
      StageResult.reject 400 "COOKIE_TOO_LONG" none :=
  c7_cookie_too_long _ goodLongCookie rfl (hasControl_replicate 4097)
    (maliciousCookie_replicate 4097) anyCookieTooLong_replicate

/-- A 4101-character cookie that also contains a malicious pattern. -/
def badCookie : String := String.mk ("javascript:".data ++ List.replicate 4090 'a')

/-- C7 counterexample: a cookie header with no control characters and a
4101-character entry that also contains the substring pattern of the
malicious-cookie check is rejected with MALICIOUS_COOKIE, not
COOKIE_TOO_LONG — the pattern check runs before the length check, so
the claim as stated fails on this input. -/
theorem c7_counterexample :
    hasControlChars badCookie = false ∧
    anyCookieTooLong badCookie = true ∧
    cookieParsingProtection ⟨0, none, Json.obj [], [], some badCookie⟩ =
      StageResult.reject 400 "MALICIOUS_COOKIE" none ∧
    StageResult.reject 400 "MALICIOUS_COOKIE" none ≠
      StageResult.reject 400 "COOKIE_TOO_LONG" none := by
  have hctrl : hasControlChars badCookie = false := by
    show (("javascript:".data ++ List.replicate 4090 'a').any _) = false
    rw [List.any_append, any_replicate_false _ 'a' (by decide) 4090,
      show ("javascript:".data.any fun c =>
        decide (c.toNat ≤ 31) || (decide (127 ≤ c.toNat) && decide (c.toNat ≤ 159))) = false
        from by decide]
    rfl
  have hlong : anyCookieTooLong badCookie = true := by
    show ((splitOnChar ';' ("javascript:".data ++ List.replicate 4090 'a')).any _) = true
    rw [splitOnChar_no_sep ';' _ ?hsep]
    case hsep =>
      intro hm
      rcases List.mem_append.mp hm with h1 | h2
      · exact absurd h1 (by decide)
      · exact not_mem_replicate_of_ne ';' 'a' (by decide) 4090 h2
    simp only [List.any_cons, List.any_nil, List.length_append, List.length_replicate]
    decide
  have hmal : maliciousCookie badCookie = true := by
    have hmap : badCookie.data.map Char.toLower =
        "javascript:".data ++ List.replicate 4090 'a' := by
      show ("javascript:".data ++ List.replicate 4090 'a').map Char.toLower = _
      rw [List.map_append, List.map_replicate,
        show Char.toLower 'a' = 'a' from by decide,
        show "javascript:".data.map Char.toLower = "javascript:".data from by decide]
    have hnotmem : ∀ q : Char, q ∉ "javascript:".data → q ≠ 'a' →
        q ∉ "javascript:".data ++ List.replicate 4090 'a' := by
      intro q hq hqa hm
      rcases List.mem_append.mp hm with h1 | h2
      · exact hq h1
      · exact not_mem_replicate_of_ne q 'a' hqa 4090 h2
    simp only [maliciousCookie, strContainsCI, strContains, hmap]
    rw [containsSubList_of_not_mem "__proto__[".data _ '_' (by decide)
        (hnotmem '_' (by decide) (by decide)),
      containsSubList_of_not_mem "constructor.".data _ 'o' (by decide)
        (hnotmem 'o' (by decide) (by decide)),
      containsSub_self "javascript:".data (List.replicate 4090 'a')]
    rfl
  refine ⟨hctrl, hlong, ?_, ?_⟩
  · simp [cookieParsingProtection,
      show badCookie.data.isEmpty = false from rfl, hctrl, hmal]
  · intro h
    injection h with h1 h2 h3
    exact absurd h2 (by decide)
